import Mathlib

/-!
Verification of the quick.reader annotation/search engine.

Shallow embedding of the core services of the repository:
  * `src/app/services/cfi.ts`      — position ordering, bookmark dedup
  * `src/app/services/search.ts`   — full-book search and chapter attribution
  * `src/app/hooks/useNavigation.ts` — bookmark toggle and the highlight
    creation state machine
  * `src/app/services/db.ts`       — record shapes of the persisted entities

Position tokens (EpubCFI strings) are modelled as pairs
(spine index, intra-section offset); the external `EpubCFI.compare`
primitive is the lexicographic three-way comparison on those pairs,
which realises the total order the spec assumes of the collaborator.
JavaScript strings are modelled as Lean `String`s, with the JS
operations (`split`, `includes`, `endsWith`, `trim`) re-implemented
over the character list so that they evaluate inside the kernel.
`Array.prototype.sort` (stable, ES2019) is modelled by
`List.insertionSort`, which is stable and sorts by the same comparator.
-/

namespace QuickReader

/-! ### JavaScript string primitives -/

/-- `href.split("#")[0]` — the file portion of an href. -/
def filePart (href : String) : String :=
  String.mk ((href.data.splitOn '#').headD [])

/-- `href.split("#")[1]` — the intra-file anchor of an href, when present. -/
def anchorPart (href : String) : Option String :=
  ((href.data.splitOn '#').get? 1).map String.mk

/-- Substring occurrence on character lists (JS `String.prototype.includes`). -/
def listContainsSub (s sub : List Char) : Bool :=
  match s with
  | [] => sub.isEmpty
  | _ :: rest => sub.isPrefixOf s || listContainsSub rest sub

/-- JS `s.includes(sub)`. -/
def strIncludes (s sub : String) : Bool :=
  listContainsSub s.data sub.data

/-- JS `s.endsWith(sub)`. -/
def strEndsWith (s sub : String) : Bool :=
  sub.data.isSuffixOf s.data

/-- JS `s.trim()`. -/
def strTrim (s : String) : String :=
  String.mk (((s.data.dropWhile Char.isWhitespace).reverse.dropWhile
    Char.isWhitespace).reverse)

/-! ### Position tokens (`EpubCFI`) -/

/-- A parsed position token: spine index of the containing content section
plus the position inside that section.  `EpubCFI.compare` orders tokens
first by spine position, then by the intra-section steps. -/
structure Cfi where
  spine : Nat
  offset : Nat
deriving DecidableEq, Repr

/-- The external comparison primitive `EpubCFI.compare`, returning
`-1`, `0` or `1` (before / same / after). -/
def cfiCompare (a b : Cfi) : Int :=
  if a.spine < b.spine then -1
  else if b.spine < a.spine then 1
  else if a.offset < b.offset then -1
  else if b.offset < a.offset then 1
  else 0

/-! ### Persisted entities (`src/app/services/db.ts`) -/

structure Bookmark where
  id : String
  bookId : String
  cfi : Cfi
  excerpt : String
  createdAt : Nat
deriving DecidableEq, Repr

inductive HighlightColor where
  | yellow
  | green
  | blue
  | pink
  | purple
deriving DecidableEq, Repr

structure Highlight where
  id : String
  bookId : String
  cfiRange : Cfi
  text : String
  color : HighlightColor
  note : Option String
  createdAt : Nat
  updatedAt : Nat
deriving DecidableEq, Repr

/-! ### `src/app/services/cfi.ts` -/

/-- The "can stay before" relation realised by the JS comparator
`(a, b) => -a.cfi.compare(a.cfi, b.cfi)` of `sortByCfi`
(descending: most advanced in the book first). -/
def sortLe {T : Type} (getCfi : T → Cfi) (a b : T) : Prop :=
  0 ≤ cfiCompare (getCfi a) (getCfi b)

instance {T : Type} (getCfi : T → Cfi) : DecidableRel (sortLe getCfi) :=
  fun _ _ => Int.decLe _ _

instance {T : Type} (getCfi : T → Cfi) : IsTotal T (sortLe getCfi) :=
  ⟨fun a b => by
    have key : ∀ x y : Cfi, 0 ≤ cfiCompare x y ∨ 0 ≤ cfiCompare y x := by
      intro ⟨xs, xo⟩ ⟨ys, yo⟩
      simp only [cfiCompare]
      split_ifs <;> omega
    exact key (getCfi a) (getCfi b)⟩

instance {T : Type} (getCfi : T → Cfi) : IsTrans T (sortLe getCfi) :=
  ⟨fun a b c h1 h2 => by
    have key : ∀ x y z : Cfi,
        0 ≤ cfiCompare x y → 0 ≤ cfiCompare y z → 0 ≤ cfiCompare x z := by
      intro ⟨xs, xo⟩ ⟨ys, yo⟩ ⟨zs, zo⟩ hxy hyz
      simp only [cfiCompare] at hxy hyz ⊢
      split_ifs at hxy hyz ⊢ <;> omega
    exact key (getCfi a) (getCfi b) (getCfi c) h1 h2⟩

/-- `sortByCfi` from `cfi.ts`: a stable sort, most advanced position first.
JS `Array.prototype.sort` is a stable sort; with the comparator above its
output is the unique stable descending ordering, realised here by
`List.insertionSort`. -/
def sortByCfi {T : Type} (items : List T) (getCfi : T → Cfi) : List T :=
  List.insertionSort (sortLe getCfi) items

def sortBookmarksByPosition (bookmarks : List Bookmark) : List Bookmark :=
  sortByCfi bookmarks (fun b => b.cfi)

def sortHighlightsByPosition (highlights : List Highlight) : List Highlight :=
  sortByCfi highlights (fun h => h.cfiRange)

/-- The same-anchor predicate used inside `isLocationBookmarked`:
equal spine position and `compare == 0`. -/
def sameAnchor (a b : Cfi) : Bool :=
  (a.spine == b.spine) && (cfiCompare a b == 0)

/-- `isLocationBookmarked` from `cfi.ts`: the first stored bookmark whose
position has the same anchor as the current location, if any. -/
def isLocationBookmarked (currentCfi : Option Cfi) (bookmarks : List Bookmark) :
    Option Bookmark :=
  match currentCfi with
  | none => none
  | some cur => bookmarks.find? (fun bm => sameAnchor cur bm.cfi)

/-! ### `src/app/services/search.ts` -/

/-- An entry of the chapter tree (epub.js `NavItem`): label, href and
nested subitems. -/
inductive NavItem where
  | mk (label : String) (href : String) (subitems : List NavItem)
deriving Repr

def NavItem.label : NavItem → String
  | .mk l _ _ => l

def NavItem.href : NavItem → String
  | .mk _ h _ => h

def NavItem.subitems : NavItem → List NavItem
  | .mk _ _ s => s

/-- The match test of `getMatchingTocEntries`:
`spineHref.includes(tocHref) || spineHref.endsWith(tocHref)` where
`tocHref = item.href.split("#")[0]`. -/
def hrefMatches (spineHref : String) (item : NavItem) : Bool :=
  strIncludes spineHref (filePart item.href) || strEndsWith spineHref (filePart item.href)

/-- `getMatchingTocEntries` from `search.ts`: every chapter-tree entry,
nested ones included, whose href matches the spine item's href; an entry
is emitted before the matches found inside its subitems, which precede
the matches of its later siblings. -/
def getMatchingTocEntries (toc : List NavItem) (spineHref : String) : List NavItem :=
  match toc with
  | [] => []
  | NavItem.mk label href subs :: rest =>
    (if hrefMatches spineHref (NavItem.mk label href subs)
      then [NavItem.mk label href subs] else [])
      ++ getMatchingTocEntries subs spineHref
      ++ getMatchingTocEntries rest spineHref

/-- The full chapter tree in traversal order (each entry followed by its
subtree, then its later siblings). -/
def flattenToc (toc : List NavItem) : List NavItem :=
  match toc with
  | [] => []
  | NavItem.mk label href subs :: rest =>
    NavItem.mk label href subs :: (flattenToc subs ++ flattenToc rest)

/-- A chapter with its resolved position (`ChapterPosition` in `search.ts`);
`cfi` is `null` when the href has no anchor or the anchor failed to
resolve. -/
structure ChapterPosition where
  label : String
  cfi : Option Cfi
deriving DecidableEq, Repr

/-- A chapter known to carry a resolved position (element of
`chaptersWithCfi`). -/
structure ChapterWithCfi where
  label : String
  cfi : Cfi
deriving DecidableEq, Repr

/-- `chapters.filter((c) => c.cfi !== null)` of `findChapterForMatch`. -/
def resolvedChapters (chapters : List ChapterPosition) : List ChapterWithCfi :=
  chapters.filterMap (fun c => c.cfi.map (fun p => ChapterWithCfi.mk c.label p))

/-- The ascending sort comparator of `findChapterForMatch`:
`cfiA.compare(a.cfi, b.cfi)`. -/
def chLe (a b : ChapterWithCfi) : Prop :=
  cfiCompare a.cfi b.cfi ≤ 0

instance : DecidableRel chLe :=
  fun _ _ => Int.decLe _ _

instance : IsTotal ChapterWithCfi chLe :=
  ⟨fun a b => by
    have key : ∀ x y : Cfi, cfiCompare x y ≤ 0 ∨ cfiCompare y x ≤ 0 := by
      intro ⟨xs, xo⟩ ⟨ys, yo⟩
      simp only [cfiCompare]
      split_ifs <;> omega
    exact key a.cfi b.cfi⟩

instance : IsTrans ChapterWithCfi chLe :=
  ⟨fun a b c h1 h2 => by
    have key : ∀ x y z : Cfi,
        cfiCompare x y ≤ 0 → cfiCompare y z ≤ 0 → cfiCompare x z ≤ 0 := by
      intro ⟨xs, xo⟩ ⟨ys, yo⟩ ⟨zs, zo⟩ hxy hyz
      simp only [cfiCompare] at hxy hyz ⊢
      split_ifs at hxy hyz ⊢ <;> omega
    exact key a.cfi b.cfi c.cfi h1 h2⟩

/-- The scan of `findChapterForMatch`: walk the ascending-sorted chapters,
keep the last one whose position is at or before the match, stop at the
first one past the match. -/
def bestLoop (matchCfi : Cfi) : List ChapterWithCfi → ChapterWithCfi → ChapterWithCfi
  | [], best => best
  | c :: rest, best =>
    if cfiCompare c.cfi matchCfi ≤ 0 then bestLoop matchCfi rest c else best

/-- `findChapterForMatch` from `search.ts`. -/
def findChapterForMatch (matchCfi : Cfi) (chapters : List ChapterPosition)
    (fallbackLabel : String) : String :=
  if chapters.length = 0 then fallbackLabel
  else if chapters.length = 1 ∨ (resolvedChapters chapters).length = 0 then
    (chapters.headD ⟨fallbackLabel, none⟩).label
  else
    (bestLoop matchCfi (List.insertionSort chLe (resolvedChapters chapters))
      ((List.insertionSort chLe (resolvedChapters chapters)).headD
        ⟨fallbackLabel, matchCfi⟩)).label

/-- The shape returned by epub.js `Section.find`. -/
structure EpubSearchMatch where
  cfi : Cfi
  excerpt : String
deriving DecidableEq, Repr

/-- `SearchResult` from `search.ts`. -/
structure SearchResult where
  cfi : Cfi
  excerpt : String
  chapterTitle : String
deriving DecidableEq, Repr

/-- A loaded content section, as the engine sees it: anchor resolution
(`getElementById` followed by `cfiFromElement`, `none` on a missing
element or a thrown conversion) and the external text-match primitive
(`Section.find`, which may throw). -/
structure SectionContent where
  anchorCfi : String → Option Cfi
  findMatches : String → Except String (List EpubSearchMatch)

/-- A spine item; `load` either yields the section's content or throws. -/
structure SpineItem where
  href : String
  load : Except String SectionContent

/-- The book as `searchBook` consumes it: chapter tree plus spine items in
document order. -/
structure Book where
  toc : List NavItem
  spine : List SpineItem

/-- `getChapterPositions` from `search.ts`: for each matching chapter,
resolve the anchor carried by its href (if any) to a position; record the
chapter with a `null` position when there is no anchor, the anchor is
empty, or resolution fails. -/
def getChapterPositions (content : SectionContent) (matchingChapters : List NavItem) :
    List ChapterPosition :=
  matchingChapters.map (fun chapter =>
    { label := strTrim chapter.label,
      cfi :=
        match anchorPart chapter.href with
        | none => none
        | some a => if a.isEmpty then none else content.anchorCfi a })

/-- The results contributed by one section's raw matches. -/
def matchesToResults (toc : List NavItem) (content : SectionContent) (item : SpineItem)
    (ms : List EpubSearchMatch) : List SearchResult :=
  ms.map (fun m =>
    { cfi := m.cfi, excerpt := m.excerpt,
      chapterTitle :=
        findChapterForMatch m.cfi
          (getChapterPositions content (getMatchingTocEntries toc item.href))
          item.href })

/-- What one iteration of the `searchBook` loop does to a spine item:
load its content, run the text-match primitive, attribute each match to a
chapter; an error from either external call fails the whole section. -/
def processSection (toc : List NavItem) (query : String) (item : SpineItem) :
    Except String (List SearchResult) :=
  match item.load with
  | .error e => .error e
  | .ok content =>
    match content.findMatches query with
    | .error e => .error e
    | .ok ms => .ok (matchesToResults toc content item ms)

/-- The observable outcome of a search: the result list, the warned-about
sections, and how often the external load / text-match primitives were
invoked. -/
structure SearchOutcome where
  results : List SearchResult
  warnings : List String
  loadAttempts : Nat
  findCalls : Nat
deriving DecidableEq, Repr

def emptyOutcome : SearchOutcome :=
  { results := [], warnings := [], loadAttempts := 0, findCalls := 0 }

/-- The `for (const item of spineItems)` loop of `searchBook`: a section
whose load or text-match throws is recorded as a warning and skipped;
a successful section appends its attributed matches to the results. -/
def searchLoop (toc : List NavItem) (query : String) :
    List SpineItem → SearchOutcome → SearchOutcome
  | [], acc => acc
  | item :: rest, acc =>
    match item.load with
    | .error _ =>
      searchLoop toc query rest
        { acc with
          loadAttempts := acc.loadAttempts + 1,
          warnings := acc.warnings ++ [item.href] }
    | .ok content =>
      match content.findMatches query with
      | .error _ =>
        searchLoop toc query rest
          { acc with
            loadAttempts := acc.loadAttempts + 1,
            findCalls := acc.findCalls + 1,
            warnings := acc.warnings ++ [item.href] }
      | .ok ms =>
        searchLoop toc query rest
          { acc with
            loadAttempts := acc.loadAttempts + 1,
            findCalls := acc.findCalls + 1,
            results := acc.results ++ matchesToResults toc content item ms }

/-- `searchBook` from `search.ts`: reject blank or single-character
queries outright, otherwise process every spine item in document order. -/
def searchBook (book : Book) (query : String) : SearchOutcome :=
  if strTrim query = "" ∨ query.length < 2 then emptyOutcome
  else searchLoop book.toc query book.spine emptyOutcome

/-- The matches a section contributes to the final result list: its
attributed matches when it processes cleanly, nothing when it fails. -/
def sectionResults (toc : List NavItem) (query : String) (item : SpineItem) :
    List SearchResult :=
  match processSection toc query item with
  | .ok rs => rs
  | .error _ => []

/-- Whether a section fails to load or to run the text-match primitive. -/
def sectionFails (toc : List NavItem) (query : String) (item : SpineItem) : Bool :=
  match processSection toc query item with
  | .ok _ => false
  | .error _ => true

/-! ### `src/app/hooks/useNavigation.ts` — `useBookmarks` -/

/-- The record built by `createBookmark` in `handleToggleBookmark`
(`db.ts` fills in the fresh id and the timestamp). -/
def newBookmark (bookId : String) (cfi : Cfi) (excerpt : String)
    (freshId : String) (now : Nat) : Bookmark :=
  { id := freshId, bookId := bookId, cfi := cfi, excerpt := excerpt, createdAt := now }

/-- `handleToggleBookmark`: a no-op without a current location; otherwise
delete the stored bookmark with the same anchor when one exists, else
create one at the current location.  `freshId` / `now` stand for
`crypto.randomUUID()` / `Date.now()` inside `createBookmark`; `excerpt`
is whatever the excerpt extraction produced (possibly empty). -/
def handleToggleBookmark (location : Option Cfi) (bookmarks : List Bookmark)
    (bookId : String) (excerpt : String) (freshId : String) (now : Nat) :
    List Bookmark :=
  match location with
  | none => bookmarks
  | some loc =>
    match isLocationBookmarked (some loc) bookmarks with
    | some existing => bookmarks.filter (fun b => b.id != existing.id)
    | none => bookmarks ++ [newBookmark bookId loc excerpt freshId now]

/-- The invariant of the data model: at most one bookmark per exact
(section, position) anchor. -/
def atMostOnePerAnchor (bookmarks : List Bookmark) : Prop :=
  bookmarks.Pairwise (fun a b => sameAnchor a.cfi b.cfi = false)

/-- The stored bookmarks anchored at a given position. -/
def bookmarksAt (p : Cfi) (bookmarks : List Bookmark) : List Bookmark :=
  bookmarks.filter (fun b => sameAnchor p b.cfi)

/-! ### `src/app/hooks/useNavigation.ts` — `useNotes` -/

/-- The stage of the highlight popup (`HighlightPopupState.stage`). -/
inductive Stage where
  | colorPicker
  | editing
deriving DecidableEq, Repr

/-- `HighlightPopupState` (screen coordinates omitted — pure UI). -/
structure PopupState where
  isNew : Bool
  stage : Stage
  highlightId : Option String
  cfiRange : Cfi
  text : String
  color : HighlightColor
  note : Option String
deriving DecidableEq, Repr

/-- A call made to the persistence collaborator (`db.ts`). -/
inductive StoreOp where
  | createHighlightOp (h : Highlight)
  | updateHighlightOp (id : String) (color : HighlightColor) (note : Option String)
  | deleteHighlightOp (id : String)
deriving DecidableEq, Repr

/-- The client-local state of `useNotes`: the mirrored highlight list, the
popup, the trace of store calls issued and the overlay registrations made
(`rendition.annotations.add`, keyed by range). -/
structure NotesState where
  highlights : List Highlight
  popup : Option PopupState
  calls : List StoreOp
  overlays : List Cfi
deriving DecidableEq, Repr

/-- The record built by `createHighlight` in `handleColorSelect`
(`db.ts` fills in the fresh id and the timestamps). -/
def newHighlight (bookId : String) (cfiRange : Cfi) (text : String)
    (color : HighlightColor) (freshId : String) (now : Nat) : Highlight :=
  { id := freshId, bookId := bookId, cfiRange := cfiRange, text := text,
    color := color, note := none, createdAt := now, updatedAt := now }

/-- `handleColorSelect`: without a popup, a no-op; on an existing
highlight or outside the color-picker stage, only the popup color
changes; in the color-picker stage of a new highlight it persists the
highlight immediately (`createHighlight`, note still null), registers the
overlay, mirrors the record into state and transitions to editing. -/
def handleColorSelect (color : HighlightColor) (st : NotesState)
    (bookId : String) (freshId : String) (now : Nat) : NotesState :=
  match st.popup with
  | none => st
  | some p =>
    if p.isNew = false ∨ p.stage ≠ Stage.colorPicker then
      { st with popup := some { p with color := color } }
    else
      let h := newHighlight bookId p.cfiRange p.text color freshId now
      { highlights := st.highlights ++ [h],
        popup := some { p with
          isNew := false, stage := Stage.editing,
          highlightId := some h.id, color := color, note := none },
        calls := st.calls ++ [StoreOp.createHighlightOp h],
        overlays := st.overlays ++ [p.cfiRange] }

/-- `handleCancelHighlight`: closes the popup; the only other effect is
clearing the browser text selection (DOM-only) — no store call. -/
def handleCancelHighlight (st : NotesState) : NotesState :=
  { st with popup := none }

/-! ### Concrete fixtures used by the witnesses -/

/-- A content section holding chapters 22–27, all anchors resolved
(the scenario of the spec's defining correctness property). -/
def chapters22to27 : List ChapterPosition :=
  [⟨"22", some ⟨3, 10⟩⟩, ⟨"23", some ⟨3, 20⟩⟩, ⟨"24", some ⟨3, 30⟩⟩,
   ⟨"25", some ⟨3, 40⟩⟩, ⟨"26", some ⟨3, 50⟩⟩, ⟨"27", some ⟨3, 60⟩⟩]

/-- A nested chapter tree: a part with two chapters living in one content
file, plus an unrelated part. -/
def tocEx : List NavItem :=
  [NavItem.mk "Part I" "part1.xhtml"
    [NavItem.mk "Chapter 1" "text/ch1.xhtml#c1" [],
     NavItem.mk "Chapter 2" "text/ch1.xhtml#c2" []],
   NavItem.mk "Part II" "part2.xhtml" []]

/-- Section content whose text-match primitive records the query it was
given; anchors never resolve. -/
def contentEx (ms : List EpubSearchMatch) : SectionContent :=
  { anchorCfi := fun _ => none, findMatches := fun _ => .ok ms }

/-- A three-section book: the middle section fails to load. -/
def bookEx : Book :=
  { toc := [],
    spine :=
      [{ href := "sec1.xhtml", load := .ok (contentEx [⟨⟨0, 5⟩, "once more"⟩]) },
       { href := "sec2.xhtml", load := .error "network" },
       { href := "sec3.xhtml", load := .ok (contentEx [⟨⟨2, 7⟩, "the whale"⟩]) }] }

/-- A popup in the color-picker stage for a fresh selection. -/
def popupEx : PopupState :=
  { isNew := true, stage := Stage.colorPicker, highlightId := none,
    cfiRange := ⟨2, 10⟩, text := "Call me Ishmael", color := HighlightColor.yellow,
    note := none }

/-- A session state holding that popup over an empty store. -/
def notesStateEx : NotesState :=
  { highlights := [], popup := some popupEx, calls := [], overlays := [] }

/-! ## Theorems -/

/-! ### Basic facts about the comparison primitive -/

theorem cfiCompare_self (a : Cfi) : cfiCompare a a = 0 := by
  simp [cfiCompare]

theorem cfiCompare_eq_zero_iff {a b : Cfi} : cfiCompare a b = 0 ↔ a = b := by
  cases a with
  | mk as ao =>
    cases b with
    | mk bs bo =>
      simp only [cfiCompare, Cfi.mk.injEq]
      split_ifs <;> simp_all <;> omega

theorem cfiCompare_le_zero_iff {a b : Cfi} :
    cfiCompare a b ≤ 0 ↔ a.spine < b.spine ∨ (a.spine = b.spine ∧ a.offset ≤ b.offset) := by
  cases a with
  | mk as ao =>
    cases b with
    | mk bs bo =>
      simp only [cfiCompare]
      split_ifs <;> simp_all <;> omega

theorem cfiCompare_swap (a b : Cfi) : cfiCompare b a = -cfiCompare a b := by
  cases a with
  | mk as ao =>
    cases b with
    | mk bs bo =>
      simp only [cfiCompare]
      split_ifs <;> simp_all <;> omega

theorem cfiCompare_le_trans {a b c : Cfi}
    (h1 : cfiCompare a b ≤ 0) (h2 : cfiCompare b c ≤ 0) : cfiCompare a c ≤ 0 := by
  rw [cfiCompare_le_zero_iff] at h1 h2 ⊢
  omega

theorem sameAnchor_self (p : Cfi) : sameAnchor p p = true := by
  simp [sameAnchor, cfiCompare_self]

theorem sameAnchor_comm (a b : Cfi) : sameAnchor a b = sameAnchor b a := by
  rw [Bool.eq_iff_iff]
  simp only [sameAnchor, Bool.and_eq_true, beq_iff_eq, cfiCompare_swap a b, neg_eq_zero]
  constructor
  · rintro ⟨h1, h2⟩
    exact ⟨h1.symm, h2⟩
  · rintro ⟨h1, h2⟩
    exact ⟨h1.symm, h2⟩

/-! ### C9 — the dedup predicate is an equivalence-like anchor test -/

/-- C9: the same-anchor predicate used for bookmark dedup (equal section
index and `compare == same`, as implemented inside `isLocationBookmarked`)
is reflexive — so a bookmark stored at exactly the current position is
always found — and symmetric in its two position arguments. -/
theorem sameAnchor_refl_symm :
    (∀ p : Cfi, sameAnchor p p = true) ∧
    (∀ a b : Cfi, sameAnchor a b = sameAnchor b a) ∧
    (∀ (p : Cfi) (bms : List Bookmark) (bm : Bookmark),
      bm ∈ bms → bm.cfi = p → (isLocationBookmarked (some p) bms).isSome = true) := by
  refine ⟨sameAnchor_self, sameAnchor_comm, ?_⟩
  intro p bms bm hmem hcfi
  have hfound : (bms.find? (fun x => sameAnchor p x.cfi)).isSome = true := by
    rw [List.find?_isSome]
    exact ⟨bm, hmem, by rw [hcfi]; exact sameAnchor_self p⟩
  exact hfound

/-- Witness for C9: a bookmark stored at exactly the current position is
found by `isLocationBookmarked`. -/
theorem sameAnchor_refl_symm_witness :
    (⟨"bm1", "book1", ⟨1, 5⟩, "exc", 100⟩ : Bookmark) ∈
      [(⟨"bm1", "book1", ⟨1, 5⟩, "exc", 100⟩ : Bookmark)] ∧
    (isLocationBookmarked (some ⟨1, 5⟩)
      [⟨"bm1", "book1", ⟨1, 5⟩, "exc", 100⟩]).isSome = true :=
  ⟨by decide,
   sameAnchor_refl_symm.2.2 ⟨1, 5⟩ _ ⟨"bm1", "book1", ⟨1, 5⟩, "exc", 100⟩
     (by decide) (by decide)⟩

/-! ### C8 — `sortByCfi` is a stable descending sort and idempotent -/

theorem sortByCfi_sorted {T : Type} (getCfi : T → Cfi) (items : List T) :
    (sortByCfi items getCfi).Sorted (sortLe getCfi) :=
  List.sorted_insertionSort (sortLe getCfi) items

theorem sortByCfi_stable {T : Type} (getCfi : T → Cfi) (items : List T) (v : Cfi) :
    (sortByCfi items getCfi).filter (fun x => cfiCompare (getCfi x) v == 0) =
      items.filter (fun x => cfiCompare (getCfi x) v == 0) := by
  set p : T → Bool := fun x => cfiCompare (getCfi x) v == 0 with hp
  have hkey : ∀ x, p x = true → getCfi x = v := by
    intro x hx
    rw [hp] at hx
    exact cfiCompare_eq_zero_iff.mp (by simpa using hx)
  have hpair : (items.filter p).Pairwise (sortLe getCfi) := by
    refine List.pairwise_of_forall_mem_list ?_
    intro a ha b hb
    have ha' := hkey a (List.of_mem_filter ha)
    have hb' := hkey b (List.of_mem_filter hb)
    unfold sortLe
    rw [ha', hb', cfiCompare_self]
  have hsub1 : List.Sublist (items.filter p) (sortByCfi items getCfi) :=
    List.sublist_insertionSort hpair (List.filter_sublist items)
  have heq : (items.filter p).filter p = items.filter p :=
    List.filter_eq_self.mpr (fun a ha => List.of_mem_filter ha)
  have hsub2 : List.Sublist (items.filter p) ((sortByCfi items getCfi).filter p) := by
    have := hsub1.filter p
    rwa [heq] at this
  have hperm : List.Perm ((sortByCfi items getCfi).filter p) (items.filter p) :=
    (List.perm_insertionSort (sortLe getCfi) items).filter p
  exact (hsub2.eq_of_length hperm.length_eq.symm).symm

theorem sortByCfi_idem {T : Type} (getCfi : T → Cfi) (items : List T) :
    sortByCfi (sortByCfi items getCfi) getCfi = sortByCfi items getCfi :=
  List.Sorted.insertionSort_eq (List.sorted_insertionSort _ _)

/-- C8: `sortBookmarksByPosition` / `sortHighlightsByPosition` (`sortByCfi`)
is a stable descending-by-position sort — items at equal positions keep
their original relative order (for every position value, filtering the
output at that position gives exactly the input's items at that position,
in input order) — and idempotent: sorting an already-sorted sequence
yields the same sequence. -/
theorem sortByPosition_stable_descending_idempotent :
    (∀ bms : List Bookmark,
      (sortBookmarksByPosition bms).Sorted (sortLe (fun b => b.cfi)) ∧
      (∀ v : Cfi, (sortBookmarksByPosition bms).filter (fun b => cfiCompare b.cfi v == 0) =
        bms.filter (fun b => cfiCompare b.cfi v == 0)) ∧
      sortBookmarksByPosition (sortBookmarksByPosition bms) = sortBookmarksByPosition bms) ∧
    (∀ hls : List Highlight,
      (sortHighlightsByPosition hls).Sorted (sortLe (fun h => h.cfiRange)) ∧
      (∀ v : Cfi, (sortHighlightsByPosition hls).filter (fun h => cfiCompare h.cfiRange v == 0) =
        hls.filter (fun h => cfiCompare h.cfiRange v == 0)) ∧
      sortHighlightsByPosition (sortHighlightsByPosition hls) = sortHighlightsByPosition hls) := by
  constructor
  · intro bms
    exact ⟨sortByCfi_sorted _ bms, fun v => sortByCfi_stable _ bms v, sortByCfi_idem _ bms⟩
  · intro hls
    exact ⟨sortByCfi_sorted _ hls, fun v => sortByCfi_stable _ hls v, sortByCfi_idem _ hls⟩

/-! ### C3 — the bookmark toggle keeps the dedup invariant -/

/-- C3: `handleToggleBookmark` deletes the stored bookmark with the same
exact anchor as the current position when one exists and creates a new
one otherwise; the invariant "at most one bookmark per exact
(section, position) pair" is preserved by every toggle, and toggling
twice at the same position starting from no bookmark there leaves zero
bookmarks at that position. -/
theorem handleToggleBookmark_spec (loc : Cfi) (bms : List Bookmark)
    (bookId excerpt excerpt2 freshId freshId2 : String) (now now2 : Nat)
    (hinv : atMostOnePerAnchor bms) :
    (∀ ex, isLocationBookmarked (some loc) bms = some ex →
      handleToggleBookmark (some loc) bms bookId excerpt freshId now =
        bms.filter (fun b => b.id != ex.id)) ∧
    (isLocationBookmarked (some loc) bms = none →
      handleToggleBookmark (some loc) bms bookId excerpt freshId now =
        bms ++ [newBookmark bookId loc excerpt freshId now]) ∧
    atMostOnePerAnchor (handleToggleBookmark (some loc) bms bookId excerpt freshId now) ∧
    ((∀ b ∈ bms, sameAnchor loc b.cfi = false) →
      bookmarksAt loc
        (handleToggleBookmark (some loc)
          (handleToggleBookmark (some loc) bms bookId excerpt freshId now)
          bookId excerpt2 freshId2 now2) = []) := by
  refine ⟨?_, ?_, ?_, ?_⟩
  · intro ex hex
    simp [handleToggleBookmark, hex]
  · intro hnone
    simp [handleToggleBookmark, hnone]
  · cases hfind : isLocationBookmarked (some loc) bms with
    | some ex =>
      have hres : handleToggleBookmark (some loc) bms bookId excerpt freshId now =
          bms.filter (fun b => b.id != ex.id) := by
        simp [handleToggleBookmark, hfind]
      rw [hres]
      exact hinv.sublist (List.filter_sublist bms)
    | none =>
      have hres : handleToggleBookmark (some loc) bms bookId excerpt freshId now =
          bms ++ [newBookmark bookId loc excerpt freshId now] := by
        simp [handleToggleBookmark, hfind]
      have hnone : ∀ b ∈ bms, sameAnchor loc b.cfi = false := by
        intro b hb
        have hfind' : bms.find? (fun bm => sameAnchor loc bm.cfi) = none := hfind
        have h := List.find?_eq_none.mp hfind' b hb
        simpa using h
      rw [hres]
      unfold atMostOnePerAnchor
      rw [List.pairwise_append]
      refine ⟨hinv, List.pairwise_singleton _ _, ?_⟩
      intro a ha b hb
      simp only [List.mem_singleton] at hb
      subst hb
      show sameAnchor a.cfi loc = false
      rw [sameAnchor_comm]
      exact hnone a ha
  · intro hnone
    have hfind0 : bms.find? (fun bm => sameAnchor loc bm.cfi) = none :=
      List.find?_eq_none.mpr (fun b hb => by simp [hnone b hb])
    have h1 : handleToggleBookmark (some loc) bms bookId excerpt freshId now =
        bms ++ [newBookmark bookId loc excerpt freshId now] := by
      simp [handleToggleBookmark, isLocationBookmarked, hfind0]
    have hfind1 : (bms ++ [newBookmark bookId loc excerpt freshId now]).find?
        (fun bm => sameAnchor loc bm.cfi) = some (newBookmark bookId loc excerpt freshId now) := by
      rw [List.find?_append, hfind0]
      simp [newBookmark, sameAnchor_self]
    have h2 : handleToggleBookmark (some loc)
        (bms ++ [newBookmark bookId loc excerpt freshId now]) bookId excerpt2 freshId2 now2 =
        (bms ++ [newBookmark bookId loc excerpt freshId now]).filter
          (fun b => b.id != (newBookmark bookId loc excerpt freshId now).id) := by
      simp [handleToggleBookmark, isLocationBookmarked, hfind1]
    rw [h1, h2]
    unfold bookmarksAt
    rw [List.filter_eq_nil_iff]
    intro b hb
    have hb1 := List.mem_filter.mp hb
    rcases List.mem_append.mp hb1.1 with hmem | hmem
    · simp [hnone b hmem]
    · exfalso
      simp only [List.mem_singleton] at hmem
      subst hmem
      simpa using hb1.2

/-- Witness for C3: toggling twice at the same position starting from an
empty bookmark list leaves zero bookmarks at that position. -/
theorem handleToggleBookmark_spec_witness :
    atMostOnePerAnchor (handleToggleBookmark (some ⟨1, 5⟩) [] "book1" "exc1" "id1" 100) ∧
    bookmarksAt ⟨1, 5⟩
      (handleToggleBookmark (some ⟨1, 5⟩)
        (handleToggleBookmark (some ⟨1, 5⟩) [] "book1" "exc1" "id1" 100)
        "book1" "exc2" "id2" 200) = [] := by
  have h := handleToggleBookmark_spec ⟨1, 5⟩ [] "book1" "exc1" "exc2" "id1" "id2" 100 200
    List.Pairwise.nil
  exact ⟨h.2.2.1, h.2.2.2 (by simp)⟩

/-! ### C2 — a highlight is persisted the moment its color is chosen -/

/-- C2: for every highlight created through the colorPicking→editing
transition (`handleColorSelect` in the color-picker stage), the highlight
is persisted to the store (`createHighlight`) at the moment the color is
chosen — with its note still null, before any note is saved — and a
subsequent `handleCancelHighlight` issues no store call, so the highlight
is still in the store. -/
theorem handleColorSelect_persists (st : NotesState) (p : PopupState)
    (color : HighlightColor) (bookId freshId : String) (now : Nat)
    (hp : st.popup = some p) (hnew : p.isNew = true) (hstage : p.stage = Stage.colorPicker) :
    (handleColorSelect color st bookId freshId now).highlights =
      st.highlights ++ [newHighlight bookId p.cfiRange p.text color freshId now] ∧
    (handleColorSelect color st bookId freshId now).calls =
      st.calls ++ [StoreOp.createHighlightOp
        (newHighlight bookId p.cfiRange p.text color freshId now)] ∧
    (newHighlight bookId p.cfiRange p.text color freshId now).note = none ∧
    (handleCancelHighlight (handleColorSelect color st bookId freshId now)).calls =
      (handleColorSelect color st bookId freshId now).calls ∧
    newHighlight bookId p.cfiRange p.text color freshId now ∈
      (handleCancelHighlight (handleColorSelect color st bookId freshId now)).highlights := by
  have hcond : ¬(p.isNew = false ∨ p.stage ≠ Stage.colorPicker) := by
    rw [hnew, hstage]
    simp
  refine ⟨?_, ?_, rfl, ?_, ?_⟩ <;>
    simp [handleColorSelect, handleCancelHighlight, hp, hcond]

/-- Witness for C2: choosing green on a fresh selection stores the
highlight at once; cancelling afterwards leaves it stored and issues no
store call. -/
theorem handleColorSelect_persists_witness :
    (handleColorSelect HighlightColor.green notesStateEx "book1" "h1" 500).highlights =
      [newHighlight "book1" ⟨2, 10⟩ "Call me Ishmael" HighlightColor.green "h1" 500] ∧
    (handleColorSelect HighlightColor.green notesStateEx "book1" "h1" 500).calls =
      [StoreOp.createHighlightOp
        (newHighlight "book1" ⟨2, 10⟩ "Call me Ishmael" HighlightColor.green "h1" 500)] ∧
    (handleCancelHighlight
      (handleColorSelect HighlightColor.green notesStateEx "book1" "h1" 500)).calls =
      (handleColorSelect HighlightColor.green notesStateEx "book1" "h1" 500).calls ∧
    newHighlight "book1" ⟨2, 10⟩ "Call me Ishmael" HighlightColor.green "h1" 500 ∈
      (handleCancelHighlight
        (handleColorSelect HighlightColor.green notesStateEx "book1" "h1" 500)).highlights := by
  have h := handleColorSelect_persists notesStateEx popupEx HighlightColor.green
    "book1" "h1" 500 rfl rfl rfl
  exact ⟨h.1, h.2.1, h.2.2.2.1, h.2.2.2.2⟩

/-! ### C4 — short queries are rejected without touching the book -/

/-- C4: for every query shorter than 2 characters (the empty string
included) `searchBook` returns the empty result list without loading any
content section and without invoking the external text-match primitive,
and (being a total function on this guard path) raises no error. -/
theorem searchBook_short_query (book : Book) (query : String)
    (hq : query.length < 2) :
    searchBook book query = emptyOutcome ∧
    (searchBook book query).results = [] ∧
    (searchBook book query).loadAttempts = 0 ∧
    (searchBook book query).findCalls = 0 := by
  have h : searchBook book query = emptyOutcome := by
    rw [searchBook, if_pos (Or.inr hq)]
  refine ⟨h, ?_, ?_, ?_⟩ <;> rw [h] <;> rfl

/-- Witness for C4: a single-character query and the empty query on a
book whose middle section would fail to load. -/
theorem searchBook_short_query_witness :
    searchBook bookEx "a" = emptyOutcome ∧ searchBook bookEx "" = emptyOutcome :=
  ⟨(searchBook_short_query bookEx "a" (by decide)).1,
   (searchBook_short_query bookEx "" (by decide)).1⟩

/-! ### C5 — failing sections are skipped, results keep spine order -/

theorem searchLoop_spec (toc : List NavItem) (query : String) :
    ∀ (items : List SpineItem) (acc : SearchOutcome),
      (searchLoop toc query items acc).results =
        acc.results ++ items.flatMap (sectionResults toc query) ∧
      (searchLoop toc query items acc).warnings =
        acc.warnings ++ (items.filter (sectionFails toc query)).map (fun i => i.href)
  | [], acc => by simp [searchLoop]
  | item :: rest, acc => by
    have ih := searchLoop_spec toc query rest
    cases hl : item.load with
    | error e =>
      have hfail : sectionFails toc query item = true := by
        simp [sectionFails, processSection, hl]
      have hres : sectionResults toc query item = [] := by
        simp [sectionResults, processSection, hl]
      simp [searchLoop, hl, ih, hfail, hres, List.filter_cons]
    | ok content =>
      cases hf : content.findMatches query with
      | error e =>
        have hfail : sectionFails toc query item = true := by
          simp [sectionFails, processSection, hl, hf]
        have hres : sectionResults toc query item = [] := by
          simp [sectionResults, processSection, hl, hf]
        simp [searchLoop, hl, hf, ih, hfail, hres, List.filter_cons]
      | ok ms =>
        have hfail : sectionFails toc query item = false := by
          simp [sectionFails, processSection, hl, hf]
        have hres : sectionResults toc query item = matchesToResults toc content item ms := by
          simp [sectionResults, processSection, hl, hf]
        simp [searchLoop, hl, hf, ih, hfail, hres, List.filter_cons]

/-- C5: for every valid query, each section that fails to load (or to run
the text-match primitive) is skipped with a recorded warning and search
continues; the result list is exactly the concatenation, in spine order,
of the matches of the successfully processed sections, and `searchBook`
(total by construction — every per-section error is caught) raises no
error. -/
theorem searchBook_skips_failed_sections (book : Book) (query : String)
    (hq : ¬(strTrim query = "" ∨ query.length < 2)) :
    (searchBook book query).results =
      book.spine.flatMap (sectionResults book.toc query) ∧
    (searchBook book query).warnings =
      (book.spine.filter (sectionFails book.toc query)).map (fun i => i.href) := by
  rw [searchBook, if_neg hq]
  have h := searchLoop_spec book.toc query book.spine emptyOutcome
  simpa [emptyOutcome] using h

/-- Witness for C5: a three-section book whose middle section fails to
load; the two successful sections' matches survive in spine order and the
failed section is the one warning. -/
theorem searchBook_skips_failed_sections_witness :
    (searchBook bookEx "whale").results =
      bookEx.spine.flatMap (sectionResults bookEx.toc "whale") ∧
    (searchBook bookEx "whale").results =
      [⟨⟨0, 5⟩, "once more", "sec1.xhtml"⟩, ⟨⟨2, 7⟩, "the whale", "sec3.xhtml"⟩] ∧
    (searchBook bookEx "whale").warnings = ["sec2.xhtml"] := by
  have hmain := searchBook_skips_failed_sections bookEx "whale" (by decide)
  refine ⟨hmain.1, ?_, by decide⟩
  rw [hmain.1]
  simp only [bookEx, contentEx, List.flatMap_cons, List.flatMap_nil]
  simp [sectionResults, processSection, contentEx, matchesToResults, getChapterPositions,
    getMatchingTocEntries, findChapterForMatch, resolvedChapters]

/-! ### C6 — degenerate chapter lists fall back -/

/-- C6: `findChapterForMatch` returns the section's fallback label when
zero chapters matched, and the first matched chapter's label when exactly
one chapter matched or none of the matched chapters has a resolved
position. -/
theorem findChapterForMatch_degenerate (matchCfi : Cfi) (chapters : List ChapterPosition)
    (fallbackLabel : String) :
    (chapters = [] → findChapterForMatch matchCfi chapters fallbackLabel = fallbackLabel) ∧
    (chapters ≠ [] → chapters.length = 1 ∨ (∀ c ∈ chapters, c.cfi = none) →
      findChapterForMatch matchCfi chapters fallbackLabel =
        (chapters.headD ⟨fallbackLabel, none⟩).label) := by
  constructor
  · rintro rfl
    simp [findChapterForMatch]
  · intro hne hcase
    have hlen : chapters.length ≠ 0 := by
      simpa [List.length_eq_zero] using hne
    have hcond : chapters.length = 1 ∨ (resolvedChapters chapters).length = 0 := by
      rcases hcase with h | h
      · exact Or.inl h
      · right
        have hnil : resolvedChapters chapters = [] := by
          rw [resolvedChapters, List.filterMap_eq_nil_iff]
          intro c hc
          rw [h c hc]
          rfl
        rw [hnil]
        rfl
    rw [findChapterForMatch, if_neg hlen, if_pos hcond]

/-- Witness for C6: the empty chapter list gives the fallback label, a
single matched chapter gives its own label, and two matched chapters with
unresolved positions give the first one's label. -/
theorem findChapterForMatch_degenerate_witness :
    findChapterForMatch ⟨0, 0⟩ [] "fallback.xhtml" = "fallback.xhtml" ∧
    findChapterForMatch ⟨0, 0⟩ [⟨"Solo", some ⟨0, 3⟩⟩] "fb" = "Solo" ∧
    findChapterForMatch ⟨0, 0⟩ [⟨"X", none⟩, ⟨"Y", none⟩] "fb" = "X" :=
  ⟨(findChapterForMatch_degenerate ⟨0, 0⟩ [] "fallback.xhtml").1 rfl,
   (findChapterForMatch_degenerate ⟨0, 0⟩ [⟨"Solo", some ⟨0, 3⟩⟩] "fb").2
     (by decide) (Or.inl (by decide)),
   (findChapterForMatch_degenerate ⟨0, 0⟩ [⟨"X", none⟩, ⟨"Y", none⟩] "fb").2
     (by decide) (Or.inr (by decide))⟩

/-! ### C1 / C10 — chapter attribution inside a shared content file -/

theorem bestLoop_spec (m : Cfi) :
    ∀ (l : List ChapterWithCfi) (best : ChapterWithCfi),
      l.Sorted chLe → (∃ c ∈ l, cfiCompare c.cfi m ≤ 0) →
      bestLoop m l best ∈ l ∧ cfiCompare (bestLoop m l best).cfi m ≤ 0 ∧
        ∀ d ∈ l, cfiCompare d.cfi m ≤ 0 → cfiCompare d.cfi (bestLoop m l best).cfi ≤ 0
  | [], _, _, hex => by simp at hex
  | c :: rest, best, hs, hex => by
    obtain ⟨hhead, hrest⟩ := List.sorted_cons.mp hs
    have hcok : cfiCompare c.cfi m ≤ 0 := by
      obtain ⟨d, hd, hdok⟩ := hex
      rcases List.mem_cons.mp hd with rfl | hd
      · exact hdok
      · exact cfiCompare_le_trans (hhead d hd) hdok
    rw [bestLoop, if_pos hcok]
    by_cases hex2 : ∃ d ∈ rest, cfiCompare d.cfi m ≤ 0
    · obtain ⟨hmem, hok, hmax⟩ := bestLoop_spec m rest c hrest hex2
      refine ⟨List.mem_cons_of_mem _ hmem, hok, ?_⟩
      intro d hd hdok
      rcases List.mem_cons.mp hd with rfl | hd
      · exact hhead _ hmem
      · exact hmax d hd hdok
    · push_neg at hex2
      have hstop : bestLoop m rest c = c := by
        cases rest with
        | nil => rfl
        | cons d rest2 =>
          have hgt := hex2 d (List.mem_cons_self d rest2)
          rw [bestLoop, if_neg (by omega)]
      rw [hstop]
      refine ⟨List.mem_cons_self c rest, hcok, ?_⟩
      intro d hd hdok
      rcases List.mem_cons.mp hd with rfl | hd
      · rw [cfiCompare_self]
      · exact absurd hdok (by have := hex2 d hd; omega)

/-- C1: whenever at least two chapters of the section carry a resolved
position and some resolved anchor is at or before the match,
`findChapterForMatch` returns the label of a chapter whose anchor is at
or before the match and is the latest such anchor (the "last anchor at or
before the target" rule). -/
theorem findChapterForMatch_last_at_or_before (matchCfi : Cfi)
    (chapters : List ChapterPosition) (fallbackLabel : String)
    (h2 : 2 ≤ (resolvedChapters chapters).length)
    (hex : ∃ c ∈ resolvedChapters chapters, cfiCompare c.cfi matchCfi ≤ 0) :
    ∃ c ∈ resolvedChapters chapters,
      cfiCompare c.cfi matchCfi ≤ 0 ∧
      (∀ d ∈ resolvedChapters chapters, cfiCompare d.cfi matchCfi ≤ 0 →
        cfiCompare d.cfi c.cfi ≤ 0) ∧
      findChapterForMatch matchCfi chapters fallbackLabel = c.label := by
  have hlenc : 2 ≤ chapters.length := by
    have hle := List.length_filterMap_le
      (fun c : ChapterPosition => c.cfi.map (fun p => ChapterWithCfi.mk c.label p)) chapters
    rw [resolvedChapters] at h2
    omega
  have hres : findChapterForMatch matchCfi chapters fallbackLabel =
      (bestLoop matchCfi (List.insertionSort chLe (resolvedChapters chapters))
        ((List.insertionSort chLe (resolvedChapters chapters)).headD
          ⟨fallbackLabel, matchCfi⟩)).label := by
    rw [findChapterForMatch, if_neg (by omega), if_neg (by push_neg; constructor <;> omega)]
  have hsorted : (List.insertionSort chLe (resolvedChapters chapters)).Sorted chLe :=
    List.sorted_insertionSort chLe (resolvedChapters chapters)
  have hmemiff : ∀ x : ChapterWithCfi,
      x ∈ List.insertionSort chLe (resolvedChapters chapters) ↔
        x ∈ resolvedChapters chapters :=
    fun _ => List.mem_insertionSort chLe
  have hex2 : ∃ c ∈ List.insertionSort chLe (resolvedChapters chapters),
      cfiCompare c.cfi matchCfi ≤ 0 := by
    obtain ⟨c, hc, hok⟩ := hex
    exact ⟨c, (hmemiff c).mpr hc, hok⟩
  obtain ⟨hmem, hok, hmax⟩ := bestLoop_spec matchCfi
    (List.insertionSort chLe (resolvedChapters chapters))
    ((List.insertionSort chLe (resolvedChapters chapters)).headD ⟨fallbackLabel, matchCfi⟩)
    hsorted hex2
  refine ⟨_, (hmemiff _).mp hmem, hok, ?_, hres⟩
  intro d hd hdok
  exact hmax d ((hmemiff d).mpr hd) hdok

/-- Witness for C1: the spec's defining scenario — chapters 22–27 share
one section, the match sits after 26's anchor and before 27's; the
attribution is "26", never "22" or "27". -/
theorem findChapterForMatch_last_at_or_before_witness :
    (∃ c ∈ resolvedChapters chapters22to27,
      cfiCompare c.cfi (⟨3, 55⟩ : Cfi) ≤ 0 ∧
      (∀ d ∈ resolvedChapters chapters22to27, cfiCompare d.cfi (⟨3, 55⟩ : Cfi) ≤ 0 →
        cfiCompare d.cfi c.cfi ≤ 0) ∧
      findChapterForMatch ⟨3, 55⟩ chapters22to27 "section7.xhtml" = c.label) ∧
    findChapterForMatch ⟨3, 55⟩ chapters22to27 "section7.xhtml" = "26" :=
  ⟨findChapterForMatch_last_at_or_before ⟨3, 55⟩ chapters22to27 "section7.xhtml"
      (by decide) ⟨⟨"22", ⟨3, 10⟩⟩, by decide, by decide⟩,
   by decide⟩

/-- C10: when at least two chapters carry a resolved position and the
match sits strictly before every resolved anchor, `findChapterForMatch`
returns the label of an earliest-anchored chapter (`bestMatch` starts at
the head of the ascending-sorted list), although no anchor is at or
before the match. -/
theorem findChapterForMatch_before_all_anchors (matchCfi : Cfi)
    (chapters : List ChapterPosition) (fallbackLabel : String)
    (h2 : 2 ≤ (resolvedChapters chapters).length)
    (hall : ∀ c ∈ resolvedChapters chapters, cfiCompare matchCfi c.cfi < 0) :
    ∃ c ∈ resolvedChapters chapters,
      (∀ d ∈ resolvedChapters chapters, cfiCompare c.cfi d.cfi ≤ 0) ∧
      findChapterForMatch matchCfi chapters fallbackLabel = c.label := by
  have hlenc : 2 ≤ chapters.length := by
    have hle := List.length_filterMap_le
      (fun c : ChapterPosition => c.cfi.map (fun p => ChapterWithCfi.mk c.label p)) chapters
    rw [resolvedChapters] at h2
    omega
  have hres : findChapterForMatch matchCfi chapters fallbackLabel =
      (bestLoop matchCfi (List.insertionSort chLe (resolvedChapters chapters))
        ((List.insertionSort chLe (resolvedChapters chapters)).headD
          ⟨fallbackLabel, matchCfi⟩)).label := by
    rw [findChapterForMatch, if_neg (by omega), if_neg (by push_neg; constructor <;> omega)]
  cases hsort : List.insertionSort chLe (resolvedChapters chapters) with
  | nil =>
    exfalso
    have hlen := List.length_insertionSort chLe (resolvedChapters chapters)
    rw [hsort] at hlen
    simp at hlen
    omega
  | cons s0 srest =>
    have hsorted := List.sorted_insertionSort chLe (resolvedChapters chapters)
    rw [hsort] at hsorted
    obtain ⟨hhead, _⟩ := List.sorted_cons.mp hsorted
    have hs0mem : s0 ∈ resolvedChapters chapters := by
      have hm : s0 ∈ List.insertionSort chLe (resolvedChapters chapters) := by
        rw [hsort]
        exact List.mem_cons_self _ _
      exact (List.mem_insertionSort chLe).mp hm
    have hs0gt : ¬ cfiCompare s0.cfi matchCfi ≤ 0 := by
      have hlt := hall s0 hs0mem
      have hsw := cfiCompare_swap matchCfi s0.cfi
      omega
    refine ⟨s0, hs0mem, ?_, ?_⟩
    · intro d hd
      have hd2 : d ∈ s0 :: srest := by
        rw [← hsort]
        exact (List.mem_insertionSort chLe).mpr hd
      rcases List.mem_cons.mp hd2 with rfl | hd3
      · rw [cfiCompare_self]
      · exact hhead d hd3
    · rw [hres, hsort, List.headD_cons, bestLoop, if_neg hs0gt]

/-- Witness for C10: with the same chapters 22–27, a match before every
anchor resolves to the earliest chapter, "22". -/
theorem findChapterForMatch_before_all_anchors_witness :
    (∃ c ∈ resolvedChapters chapters22to27,
      (∀ d ∈ resolvedChapters chapters22to27, cfiCompare c.cfi d.cfi ≤ 0) ∧
      findChapterForMatch ⟨3, 5⟩ chapters22to27 "section7.xhtml" = c.label) ∧
    findChapterForMatch ⟨3, 5⟩ chapters22to27 "section7.xhtml" = "22" :=
  ⟨findChapterForMatch_before_all_anchors ⟨3, 5⟩ chapters22to27 "section7.xhtml"
      (by decide) (by decide),
   by decide⟩

/-! ### C7 — chapter-tree matching is a filtered full traversal -/

theorem getMatchingTocEntries_eq_filter (spineHref : String) :
    ∀ toc : List NavItem,
      getMatchingTocEntries toc spineHref = (flattenToc toc).filter (hrefMatches spineHref)
  | [] => by
    rw [getMatchingTocEntries, flattenToc]
    rfl
  | NavItem.mk label href subs :: rest => by
    rw [getMatchingTocEntries, flattenToc,
      getMatchingTocEntries_eq_filter spineHref subs,
      getMatchingTocEntries_eq_filter spineHref rest,
      List.filter_cons, List.filter_append]
    cases hrefMatches spineHref (NavItem.mk label href subs) <;> simp

/-- C7: `getMatchingTocEntries` collects exactly the chapter-tree entries
— nested entries at any depth included, in traversal order — that satisfy
the href match against the given content section, and that match test
depends only on the file portion of the entry's href (any intra-file
anchor is ignored). -/
theorem getMatchingTocEntries_spec (spineHref : String) (toc : List NavItem) :
    getMatchingTocEntries toc spineHref = (flattenToc toc).filter (hrefMatches spineHref) ∧
    (∀ (l1 h1 : String) (s1 : List NavItem) (l2 h2 : String) (s2 : List NavItem),
      filePart h1 = filePart h2 →
      hrefMatches spineHref (NavItem.mk l1 h1 s1) =
        hrefMatches spineHref (NavItem.mk l2 h2 s2)) := by
  refine ⟨getMatchingTocEntries_eq_filter spineHref toc, ?_⟩
  intro l1 h1 s1 l2 h2 s2 hfp
  simp only [hrefMatches, NavItem.href]
  rw [hfp]

/-- Witness for C7: a nested tree whose two chapter entries live inside a
part entry; both are collected, in traversal order, and entries differing
only in the intra-file anchor match alike. -/
theorem getMatchingTocEntries_spec_witness :
    hrefMatches "OEBPS/text/ch1.xhtml" (NavItem.mk "A" "text/ch1.xhtml#c1" []) =
      hrefMatches "OEBPS/text/ch1.xhtml" (NavItem.mk "B" "text/ch1.xhtml#zz" []) ∧
    getMatchingTocEntries tocEx "OEBPS/text/ch1.xhtml" =
      [NavItem.mk "Chapter 1" "text/ch1.xhtml#c1" [],
       NavItem.mk "Chapter 2" "text/ch1.xhtml#c2" []] := by
  constructor
  · exact (getMatchingTocEntries_spec "OEBPS/text/ch1.xhtml" []).2
      "A" "text/ch1.xhtml#c1" [] "B" "text/ch1.xhtml#zz" [] (by decide)
  · have h1 : hrefMatches "OEBPS/text/ch1.xhtml"
        (NavItem.mk "Part I" "part1.xhtml"
          [NavItem.mk "Chapter 1" "text/ch1.xhtml#c1" [],
           NavItem.mk "Chapter 2" "text/ch1.xhtml#c2" []]) = false := by decide
    have h2 : hrefMatches "OEBPS/text/ch1.xhtml"
        (NavItem.mk "Chapter 1" "text/ch1.xhtml#c1" []) = true := by decide
    have h3 : hrefMatches "OEBPS/text/ch1.xhtml"
        (NavItem.mk "Chapter 2" "text/ch1.xhtml#c2" []) = true := by decide
    have h4 : hrefMatches "OEBPS/text/ch1.xhtml"
        (NavItem.mk "Part II" "part2.xhtml" []) = false := by decide
    simp [tocEx, getMatchingTocEntries, h1, h2, h3, h4]

end QuickReader
